import Mathlib

/-!
Verification of the thumbnail gallery's persistence and presentation
pipeline, shallowly embedded from the repository's page component
(`onUploadSubmit`, `onEditSubmit`, `handleDelete`, `handleDownload`,
`filteredThumbnails`, the zod validation schemas) and the AI critique
flow (`critiqueThumbnailFlow`).

JavaScript strings are modelled as `List Char`; timestamps as `Nat`;
JavaScript numbers that only ever hold integral byte counts as `Nat`,
and the critique scores (arbitrary numbers) as `ℚ`.  The document
store and the file encoder are external collaborators and are
modelled by their observable responses.
-/

namespace ThumbZone

/-- `MAX_DOC_SIZE_BYTES = 1048487` — Firestore's 1 MiB limit, with a
small buffer (source line 68). -/
def MAX_DOC_SIZE_BYTES : Nat := 1048487

/-- Ten times `MAX_IMAGE_FILE_SIZE_BYTES = 0.7 * 1024 * 1024 = 734003.2`
(source lines 69-70).  The source constant is not an integer, so the
comparison `size <= MAX_IMAGE_FILE_SIZE_BYTES` on integral file sizes
is embedded scaled by 10: `10 * size ≤ 7340032`.  (The IEEE-754 value
of `0.7 * 1024 * 1024` lies strictly between 734003 and 734004, so on
integer sizes it orders identically to the exact rational 734003.2.) -/
def MAX_IMAGE_FILE_SIZE_BYTES_x10 : Nat := 7340032

/-- The size predicate of `uploadSchema`'s second `.refine`:
`files?.[0]?.size <= MAX_IMAGE_FILE_SIZE_BYTES` (source line 88),
scaled by 10 as explained at `MAX_IMAGE_FILE_SIZE_BYTES_x10`. -/
def fileSizeOk (size : Nat) : Bool :=
  10 * size ≤ MAX_IMAGE_FILE_SIZE_BYTES_x10

/-- The `categories` array (source line 98). -/
def categories : List (List Char) :=
  [ "All".data, "Gaming".data, "Vlog".data, "Tutorial".data,
    "Lifestyle".data, "Tech".data, "Cooking".data, "Education".data]

/-- `getByteLength` (source lines 109-113): `new Blob([str]).size`, the
UTF-8 byte length of the string. -/
def getByteLength (s : List Char) : Nat :=
  (s.map Char.utf8Size).sum

/-- A thumbnail record (`type Thumbnail`, source lines 73-79). -/
structure Thumbnail where
  id : List Char
  title : List Char
  category : List Char
  imageUrl : List Char
  createdAt : Nat
deriving DecidableEq

/-- The upload form's fields as the zod `uploadSchema` sees them:
`title` a string, `category` a string or missing (`required_error`),
`image` a file list, of which only the length and the byte size of the
first element are inspected. -/
structure UploadForm where
  title : List Char
  category : Option (List Char)
  files : List Nat
deriving DecidableEq

/-- `uploadSchema` (source lines 81-91): title at least 3 characters,
category present (any string — no membership test), exactly one file,
whose size passes `fileSizeOk`.  -/
def uploadSchemaValid (f : UploadForm) : Bool :=
  decide (3 ≤ f.title.length) && f.category.isSome &&
    f.files.length == 1 &&
    (match f.files.head? with
     | some size => fileSizeOk size
     | none => false)

/-- The edit form's fields as the zod `editSchema` sees them. -/
structure EditForm where
  title : List Char
  category : Option (List Char)
deriving DecidableEq

/-- `editSchema` (source lines 93-96): title at least 3 characters,
category present (any string — no membership test). -/
def editSchemaValid (f : EditForm) : Bool :=
  decide (3 ≤ f.title.length) && f.category.isSome

/-- Observable response of `addDoc` on the thumbnails collection:
either an acknowledgment carrying the store-assigned document id, or a
rejection (thrown error). -/
inductive StoreResp where
  | acked (docId : List Char)
  | failed
deriving DecidableEq

/-- Observable response of `updateDoc` / `deleteDoc`: acknowledgment
or rejection. -/
inductive StoreAck where
  | acked
  | failed
deriving DecidableEq

/-- Observable result of `toBase64` (source lines 101-106): the data
URI on a successful read, or a rejected promise. -/
inductive EncodeResult where
  | ok (dataUrl : List Char)
  | failed
deriving DecidableEq

/-- The distinct ways an upload attempt can end (source lines 215-274):
success with the new document id, form-validation rejection (no
handler call at all), encoding failure, the thrown "too large" error,
or a store error caught in the catch branch. -/
inductive UploadOutcome where
  | success (docId : List Char)
  | invalidForm
  | encodeFailed
  | tooLarge
  | storeError
deriving DecidableEq

/-- State observable after an upload attempt: the thumbnails list, how
many store writes and encoding calls were issued, and the outcome. -/
structure UploadState where
  thumbnails : List Thumbnail
  storeCalls : Nat
  encodeCalls : Nat
  outcome : UploadOutcome
deriving DecidableEq

/-- `onUploadSubmit` (source lines 215-274), after form validation has
passed: encode the file (`toBase64`); if the encoded data URI's byte
length exceeds `MAX_DOC_SIZE_BYTES`, throw "too large" before any
store call; otherwise `addDoc`, and only on acknowledgment prepend the
new record `{ id := docRef.id, title, category, imageUrl, createdAt }`
to the list.  Every catch path leaves the list as it was. -/
def onUploadSubmit (title category : List Char) (now : Nat)
    (enc : EncodeResult) (store : StoreResp)
    (thumbnails : List Thumbnail) : UploadState :=
  match enc with
  | .failed => ⟨thumbnails, 0, 1, .encodeFailed⟩
  | .ok dataUrl =>
    if getByteLength dataUrl > MAX_DOC_SIZE_BYTES then
      ⟨thumbnails, 0, 1, .tooLarge⟩
    else
      match store with
      | .failed => ⟨thumbnails, 1, 1, .storeError⟩
      | .acked docId =>
        ⟨⟨docId, title, category, dataUrl, now⟩ :: thumbnails, 1, 1,
          .success docId⟩

/-- The whole upload path: `handleSubmit(onUploadSubmit)` runs the zod
`uploadSchema` first and only calls `onUploadSubmit` (which starts by
encoding) when validation passes, so an invalid form performs no
encoding and no store call. -/
def uploadPipeline (form : UploadForm) (now : Nat) (enc : EncodeResult)
    (store : StoreResp) (thumbnails : List Thumbnail) : UploadState :=
  if uploadSchemaValid form then
    match form.category with
    | some cat => onUploadSubmit form.title cat now enc store thumbnails
    | none => ⟨thumbnails, 0, 0, .invalidForm⟩
  else ⟨thumbnails, 0, 0, .invalidForm⟩

/-- Outcome of an edit attempt. -/
inductive EditOutcome where
  | success
  | storeError
deriving DecidableEq

/-- State observable after an edit attempt. -/
structure EditState where
  thumbnails : List Thumbnail
  outcome : EditOutcome
deriving DecidableEq

/-- `onEditSubmit` (source lines 276-305): `updateDoc` with the new
title and category; on acknowledgment replace in-memory by id via
`thumbnails.map(t => t.id === editingId ? { ...t, ...values } : t)`;
on failure leave the list unchanged. -/
def onEditSubmit (editingId newTitle newCategory : List Char)
    (store : StoreAck) (thumbnails : List Thumbnail) : EditState :=
  match store with
  | .failed => ⟨thumbnails, .storeError⟩
  | .acked =>
    ⟨thumbnails.map (fun t =>
        if t.id == editingId then
          { t with title := newTitle, category := newCategory }
        else t),
      .success⟩

/-- `handleDelete` (source lines 186-202): `deleteDoc`; on
acknowledgment `thumbnails.filter(t => t.id !== thumbnailId)`; on
failure leave the list unchanged. -/
def handleDelete (thumbnailId : List Char) (store : StoreAck)
    (thumbnails : List Thumbnail) : List Thumbnail :=
  match store with
  | .failed => thumbnails
  | .acked => thumbnails.filter (fun t => !(t.id == thumbnailId))

/-- Substring containment, the model of JavaScript
`String.prototype.includes`: some chunk of consecutive characters of
the haystack equals the pattern (the empty pattern is contained in
everything). -/
def startsWith : List Char → List Char → Bool
  | _, [] => true
  | [], _ :: _ => false
  | c :: cs, p :: ps => c == p && startsWith cs ps

/-- See `startsWith`. -/
def containsSub (hay pat : List Char) : Bool :=
  match hay with
  | [] => pat.isEmpty
  | _ :: rest => startsWith hay pat || containsSub rest pat

/-- `filteredThumbnails` (source lines 308-312): keep the records whose
category equals the active one (or everything when the active category
is "All"), then keep those whose lower-cased title contains the
lower-cased search term.  `toLowerCase` is modelled per-character by
`Char.toLower`. -/
def filteredThumbnails (thumbnails : List Thumbnail)
    (activeCategory searchTerm : List Char) : List Thumbnail :=
  (thumbnails.filter (fun t =>
      activeCategory == "All".data || t.category == activeCategory)).filter
    (fun t =>
      containsSub (t.title.map Char.toLower) (searchTerm.map Char.toLower))

/-- JavaScript regular-expression class `\s`: the whitespace and line
terminator code points matched by `/\s/`. -/
def isJsWs (c : Char) : Bool :=
  let n := c.toNat
  (9 ≤ n && n ≤ 13) || n == 32 || n == 160 || n == 5760 ||
    (8192 ≤ n && n ≤ 8202) || n == 8232 || n == 8233 || n == 8239 ||
    n == 8287 || n == 12288 || n == 65279

/-- Scanner for `title.replace(/\s+/g, '_')`: the flag records whether
the previous character was inside a whitespace run, so each maximal
run contributes a single underscore. -/
def collapseWsGo : Bool → List Char → List Char
  | _, [] => []
  | inRun, c :: rest =>
    if isJsWs c then
      if inRun then collapseWsGo true rest
      else '_' :: collapseWsGo true rest
    else c :: collapseWsGo false rest

/-- `title.replace(/\s+/g, '_')` (source line 209). -/
def collapseWs (l : List Char) : List Char :=
  collapseWsGo false l

/-- JavaScript `String.prototype.split` with a one-character separator
(total, returns at least one piece; `"".split(sep) = [""]`). -/
def splitOnChar (sep : Char) : List Char → List (List Char)
  | [] => [[]]
  | c :: rest =>
    if c = sep then [] :: splitOnChar sep rest
    else
      match splitOnChar sep rest with
      | [] => [[c]]
      | h :: t => (c :: h) :: t

/-- The extension computation of `handleDownload` (source line 208):
`imageUrl.split(';')[0].split('/')[1] || 'png'` — the second
'/'-separated field of the part before the first ';', with `'png'`
substituted when that field is absent or the empty string (both are
falsy in JavaScript). -/
def extFromDataUri (imageUrl : List Char) : List Char :=
  match (splitOnChar '/' ((splitOnChar ';' imageUrl).headD []))[1]? with
  | some s => if s.isEmpty then "png".data else s
  | none => "png".data

/-- The download file name of `handleDownload` (source line 209):
`` `${title.replace(/\s+/g, '_')}.${extension}` ``. -/
def downloadFilename (imageUrl title : List Char) : List Char :=
  collapseWs title ++ '.' :: extFromDataUri imageUrl

/-- What the claim's words say the extension is: "the substring
between the first '/' and the first ';'", falling back to "png" when
no such (non-empty) substring is present.  Stated from the claim, to
be compared with `extFromDataUri`, which embeds the source. -/
def claimExt (imageUrl : List Char) : List Char :=
  match imageUrl.findIdx? (· = '/'), imageUrl.findIdx? (· = ';') with
  | some i, some j =>
    if i + 1 < j then (imageUrl.drop (i + 1)).take (j - (i + 1))
    else "png".data
  | _, _ => "png".data

/-- The structured output of the critique flow
(`CritiqueThumbnailOutputSchema`, types.ts lines 15-21): three
numeric scores, a verdict string, and a list of suggestion strings. -/
structure CritiqueThumbnailOutput where
  engagementScore : ℚ
  clarityScore : ℚ
  colorScore : ℚ
  overallVerdict : List Char
  suggestions : List (List Char)
deriving DecidableEq

/-- Validation performed by `CritiqueThumbnailOutputSchema`: each score
constrained by `.min(0).max(100)`; `overallVerdict` any string;
`suggestions` any array of strings — the schema itself places no
bound on its length (the "2-4" wording lives only in `.describe`). -/
def critiqueOutputSchemaValid (o : CritiqueThumbnailOutput) : Bool :=
  decide (0 ≤ o.engagementScore) && decide (o.engagementScore ≤ 100) &&
    decide (0 ≤ o.clarityScore) && decide (o.clarityScore ≤ 100) &&
    decide (0 ≤ o.colorScore) && decide (o.colorScore ≤ 100)

/-- `critiqueThumbnailFlow` (critique-thumbnail-flow.ts lines 55-65):
the flow forwards the prompt's structured output after it has been
validated against `CritiqueThumbnailOutputSchema`; a missing or
invalid model output is a flow failure (`none`). -/
def critiqueThumbnailFlow (modelOutput : Option CritiqueThumbnailOutput) :
    Option CritiqueThumbnailOutput :=
  match modelOutput with
  | some o => if critiqueOutputSchemaValid o then some o else none
  | none => none

/-- A record category is one of the seven real categories: a member of
the `categories` array other than the sentinel "All".  These are
exactly the options the upload/edit select menus offer
(`categories.filter(c => c !== 'All')`, source lines 368 and 472). -/
def validCategory (c : List Char) : Bool :=
  categories.contains c && !(c == "All".data)

/-- Whether an upload attempt ended in success. -/
def UploadOutcome.isSuccess : UploadOutcome → Bool
  | .success _ => true
  | _ => false

/-! ### Helper lemmas -/

/-- Byte length of a repeated character. -/
theorem getByteLength_replicate (n : Nat) (c : Char) :
    getByteLength (List.replicate n c) = n * c.utf8Size := by
  simp [getByteLength, List.map_replicate, List.sum_replicate, smul_eq_mul]

/-- The empty pattern is contained in every string. -/
theorem containsSub_nil (hay : List Char) : containsSub hay [] = true := by
  cases hay <;> simp [containsSub, startsWith]

/-- Applying a pair of filters twice is the same as applying it once. -/
theorem filter_pair_idem {α : Type} (p q : α → Bool) (l : List α) :
    ((((l.filter p).filter q).filter p).filter q)
      = (l.filter p).filter q := by
  simp only [List.filter_filter]
  apply List.filter_congr
  intro a _
  cases p a <;> cases q a <;> rfl

/-- Splitting a string that does not contain the separator yields the
string as its only piece. -/
theorem splitOnChar_of_not_mem (sep : Char) (l : List Char) (h : sep ∉ l) :
    splitOnChar sep l = [l] := by
  induction l with
  | nil => rfl
  | cons c rest ih =>
    simp only [List.mem_cons, not_or] at h
    have hc : ¬ c = sep := fun e => h.1 (e ▸ rfl)
    simp [splitOnChar, hc, ih h.2]

/-- Splitting at the first separator occurrence peels off the
separator-free part before it. -/
theorem splitOnChar_append (sep : Char) (a b : List Char) (ha : sep ∉ a) :
    splitOnChar sep (a ++ sep :: b) = a :: splitOnChar sep b := by
  induction a with
  | nil => simp [splitOnChar]
  | cons c rest ih =>
    simp only [List.mem_cons, not_or] at ha
    have hc : ¬ c = sep := fun e => ha.1 (e ▸ rfl)
    simp [splitOnChar, hc, ih ha.2]

/-! ### Claims -/

/-- C1: For every create (upload) whose inputs pass validation (title
at least 3 characters, category from the enumerated set, encoded image
at most 1,048,487 bytes) and that the store acknowledges with an id,
the resulting in-memory list equals the new record (carrying the
store-assigned id and the client-assigned createdAt) prepended at
index 0, with every previously held record shifted by one position and
otherwise unchanged. -/
theorem create_valid_acked_prepends (title cat dataUrl docId : List Char)
    (now fsize : Nat) (l : List Thumbnail)
    (htitle : 3 ≤ title.length)
    (hcat : cat ∈ categories.filter (fun c => !(c == "All".data)))
    (hfile : fileSizeOk fsize = true)
    (hsize : getByteLength dataUrl ≤ MAX_DOC_SIZE_BYTES) :
    (uploadPipeline ⟨title, some cat, [fsize]⟩ now (.ok dataUrl)
        (.acked docId) l).thumbnails
      = ⟨docId, title, cat, dataUrl, now⟩ :: l ∧
    (uploadPipeline ⟨title, some cat, [fsize]⟩ now (.ok dataUrl)
        (.acked docId) l).outcome = .success docId ∧
    (uploadPipeline ⟨title, some cat, [fsize]⟩ now (.ok dataUrl)
        (.acked docId) l).thumbnails[0]?
      = some ⟨docId, title, cat, dataUrl, now⟩ ∧
    ∀ k : Nat,
      (uploadPipeline ⟨title, some cat, [fsize]⟩ now (.ok dataUrl)
          (.acked docId) l).thumbnails[k + 1]? = l[k]? := by
  have hvalid : uploadSchemaValid ⟨title, some cat, [fsize]⟩ = true := by
    simp [uploadSchemaValid, htitle, hfile]
  have hmain : uploadPipeline ⟨title, some cat, [fsize]⟩ now (.ok dataUrl)
      (.acked docId) l
      = ⟨⟨docId, title, cat, dataUrl, now⟩ :: l, 1, 1, .success docId⟩ := by
    simp [uploadPipeline, hvalid, onUploadSubmit, Nat.not_lt.mpr hsize]
  refine ⟨by rw [hmain], by rw [hmain], by rw [hmain]; simp, ?_⟩
  intro k
  rw [hmain]
  exact List.getElem?_cons_succ

/-- Witness for C1 at a concrete valid input. -/
theorem create_valid_acked_prepends_witness :
    (uploadPipeline ⟨ "abc".data, some ( "Gaming".data), [100]⟩ 0
        (.ok ( "img".data)) (.acked ( "d1".data)) []).thumbnails
      = [⟨ "d1".data, "abc".data, "Gaming".data, "img".data, 0⟩] :=
  (create_valid_acked_prepends ( "abc".data) ( "Gaming".data) ( "img".data)
    ( "d1".data) 0 100 [] (by decide) (by decide) (by decide) (by decide)).1

/-- C2: For every file whose encoded data-URI form has a byte length
(counting multi-byte characters) strictly greater than 1,048,487
bytes, the create operation rejects with a "too large" condition
before any store write is issued (store call count = 0), and an
encoded payload of exactly 1,048,487 bytes is accepted by this
check. -/
theorem sizeGate_rejects_before_store (title cat dataUrl : List Char)
    (now : Nat) (store : StoreResp) (l : List Thumbnail) :
    (getByteLength dataUrl > MAX_DOC_SIZE_BYTES →
      (onUploadSubmit title cat now (.ok dataUrl) store l).outcome
          = .tooLarge ∧
      (onUploadSubmit title cat now (.ok dataUrl) store l).storeCalls = 0 ∧
      (onUploadSubmit title cat now (.ok dataUrl) store l).thumbnails = l) ∧
    (getByteLength dataUrl = MAX_DOC_SIZE_BYTES →
      (onUploadSubmit title cat now (.ok dataUrl) store l).outcome
        ≠ .tooLarge) := by
  constructor
  · intro h
    simp [onUploadSubmit, h]
  · intro h
    have hlt : ¬ getByteLength dataUrl > MAX_DOC_SIZE_BYTES := by omega
    cases store <;> simp [onUploadSubmit, hlt]

/-- Witness for C2: a 1,048,488-byte payload is rejected with no store
call, and a 1,048,487-byte payload passes the size check. -/
theorem sizeGate_rejects_before_store_witness :
    ((onUploadSubmit ( "t".data) ( "Gaming".data) 0
        (.ok (List.replicate 1048488 'a')) .failed []).outcome
          = .tooLarge ∧
      (onUploadSubmit ( "t".data) ( "Gaming".data) 0
        (.ok (List.replicate 1048488 'a')) .failed []).storeCalls = 0 ∧
      (onUploadSubmit ( "t".data) ( "Gaming".data) 0
        (.ok (List.replicate 1048488 'a')) .failed []).thumbnails = []) ∧
    (onUploadSubmit ( "t".data) ( "Gaming".data) 0
        (.ok (List.replicate 1048487 'a')) .failed []).outcome
      ≠ .tooLarge := by
  have ha : ('a').utf8Size = 1 := by decide
  have h1 : getByteLength (List.replicate 1048488 'a') = 1048488 := by
    rw [getByteLength_replicate, ha, Nat.mul_one]
  have h2 : getByteLength (List.replicate 1048487 'a') = 1048487 := by
    rw [getByteLength_replicate, ha, Nat.mul_one]
  constructor
  · exact (sizeGate_rejects_before_store ( "t".data) ( "Gaming".data)
      (List.replicate 1048488 'a') 0 .failed []).1
      (by rw [h1]; norm_num [MAX_DOC_SIZE_BYTES])
  · exact (sizeGate_rejects_before_store ( "t".data) ( "Gaming".data)
      (List.replicate 1048487 'a') 0 .failed []).2
      (by rw [h2]; norm_num [MAX_DOC_SIZE_BYTES])

/-- C3: For every create attempt that fails at any stage (form
validation, encoding error, size-gate rejection, or store rejection),
the in-memory thumbnail list after the attempt is identical to its
state before the attempt. -/
theorem failed_create_leaves_list (form : UploadForm) (now : Nat)
    (enc : EncodeResult) (store : StoreResp) (l : List Thumbnail)
    (h : (uploadPipeline form now enc store l).outcome.isSuccess = false) :
    (uploadPipeline form now enc store l).thumbnails = l := by
  by_cases hv : uploadSchemaValid form = true
  · cases hcat : form.category with
    | none => simp [uploadPipeline, hv, hcat]
    | some cat =>
      simp only [uploadPipeline, hv, if_true, hcat] at h ⊢
      cases enc with
      | failed => simp [onUploadSubmit]
      | ok dataUrl =>
        by_cases hs : getByteLength dataUrl > MAX_DOC_SIZE_BYTES
        · simp [onUploadSubmit, hs]
        · cases store with
          | failed => simp [onUploadSubmit, hs]
          | acked docId =>
            simp [onUploadSubmit, hs, UploadOutcome.isSuccess] at h
  · simp [uploadPipeline, hv]

/-- Witness for C3 at a concrete store-rejected upload. -/
theorem failed_create_leaves_list_witness :
    (uploadPipeline ⟨ "abc".data, some ( "Gaming".data), [100]⟩ 0
        (.ok ( "img".data)) .failed
        [⟨ "d1".data, "abc".data, "Gaming".data, "img".data, 0⟩]).thumbnails
      = [⟨ "d1".data, "abc".data, "Gaming".data, "img".data, 0⟩] :=
  failed_create_leaves_list ⟨ "abc".data, some ( "Gaming".data), [100]⟩ 0
    (.ok ( "img".data)) .failed
    [⟨ "d1".data, "abc".data, "Gaming".data, "img".data, 0⟩] (by decide)

/-- C4: For every acknowledged update of an existing record id with a
new title and category, the in-memory list afterwards differs from
before only in the matching record's title and category fields: the
record's imageUrl and createdAt are unchanged, the record keeps its
list position, and every other record is unchanged. -/
theorem edit_acked_frame (editingId newTitle newCategory : List Char)
    (l : List Thumbnail) :
    (onEditSubmit editingId newTitle newCategory .acked l).outcome
        = .success ∧
    (onEditSubmit editingId newTitle newCategory .acked l).thumbnails.length
        = l.length ∧
    ∀ i : Nat, ∀ t t' : Thumbnail, l[i]? = some t →
      (onEditSubmit editingId newTitle newCategory .acked l).thumbnails[i]?
          = some t' →
      t'.id = t.id ∧ t'.imageUrl = t.imageUrl ∧ t'.createdAt = t.createdAt ∧
      (t.id ≠ editingId → t' = t) ∧
      (t.id = editingId →
        t'.title = newTitle ∧ t'.category = newCategory) := by
  refine ⟨rfl, by simp [onEditSubmit], ?_⟩
  intro i t t' ht ht'
  simp only [onEditSubmit, List.getElem?_map, ht, Option.map_some',
    Option.some.injEq] at ht'
  by_cases hid : t.id = editingId
  · rw [if_pos (by simp [hid])] at ht'
    subst ht'
    refine ⟨rfl, rfl, rfl, fun hne => absurd hid hne, fun _ => ⟨rfl, rfl⟩⟩
  · rw [if_neg (by simp [hid])] at ht'
    subst ht'
    exact ⟨rfl, rfl, rfl, fun _ => rfl, fun he => absurd he hid⟩

/-- Witness for C4: after an acknowledged edit at an id that matches
the only record, the stored record carries the new title and
category. -/
theorem edit_acked_frame_witness :
    (⟨ "d1".data, "new".data, "Tech".data, "img".data, 7⟩
        : Thumbnail).title = "new".data ∧
    (⟨ "d1".data, "new".data, "Tech".data, "img".data, 7⟩
        : Thumbnail).category = "Tech".data :=
  ((edit_acked_frame ( "d1".data) ( "new".data) ( "Tech".data)
      [⟨ "d1".data, "old".data, "Gaming".data, "img".data, 7⟩]).2.2 0
    ⟨ "d1".data, "old".data, "Gaming".data, "img".data, 7⟩
    ⟨ "d1".data, "new".data, "Tech".data, "img".data, 7⟩
    (by decide) (by decide)).2.2.2.2 (by decide)

/-- C5: For every acknowledged delete of id X on an in-memory list
holding exactly one record with that id, the resulting list is the
original list with exactly that record removed, and all other records
present in their original relative order. -/
theorem delete_acked_removes_unique (x : List Char)
    (pre post : List Thumbnail) (r : Thumbnail) (hr : r.id = x)
    (hpre : ∀ t ∈ pre, t.id ≠ x) (hpost : ∀ t ∈ post, t.id ≠ x) :
    handleDelete x .acked (pre ++ r :: post) = pre ++ post := by
  have h1 : pre.filter (fun t => !(t.id == x)) = pre :=
    List.filter_eq_self.mpr (fun t ht => by simp [hpre t ht])
  have h2 : post.filter (fun t => !(t.id == x)) = post :=
    List.filter_eq_self.mpr (fun t ht => by simp [hpost t ht])
  simp [handleDelete, List.filter_append, List.filter_cons, hr, h1, h2]

/-- Witness for C5 on a concrete three-record list. -/
theorem delete_acked_removes_unique_witness :
    handleDelete ( "d2".data) .acked
      ([⟨ "d1".data, "a".data, "Vlog".data, "i1".data, 3⟩]
        ++ ⟨ "d2".data, "b".data, "Tech".data, "i2".data, 2⟩
        :: [⟨ "d3".data, "c".data, "Vlog".data, "i3".data, 1⟩])
      = [⟨ "d1".data, "a".data, "Vlog".data, "i1".data, 3⟩]
        ++ [⟨ "d3".data, "c".data, "Vlog".data, "i3".data, 1⟩] :=
  delete_acked_removes_unique ( "d2".data)
    [⟨ "d1".data, "a".data, "Vlog".data, "i1".data, 3⟩]
    [⟨ "d3".data, "c".data, "Vlog".data, "i3".data, 1⟩]
    ⟨ "d2".data, "b".data, "Tech".data, "i2".data, 2⟩
    (by decide) (by decide) (by decide)

/-- C6: The filter/search operation is pure and idempotent: for every
list, category, and search term, applying the filter to its own output
with the same (category, searchTerm) yields the same result list; and
applying it with category "All" and the empty search term returns the
full input list unchanged in order. -/
theorem filter_idem_and_all_identity (l : List Thumbnail)
    (activeCategory searchTerm : List Char) :
    filteredThumbnails (filteredThumbnails l activeCategory searchTerm)
        activeCategory searchTerm
      = filteredThumbnails l activeCategory searchTerm ∧
    filteredThumbnails l ( "All".data) [] = l := by
  constructor
  · exact filter_pair_idem _ _ l
  · simp [filteredThumbnails, containsSub_nil]

/-- C7 counterexample: the validation schemas do not restrict the
category to the enumerated set — the sentinel "All" passes both
`uploadSchema` and `editSchema`, and a create submitted with category
"All" is persisted with that category. -/
theorem category_all_passes_validation :
    uploadSchemaValid ⟨ "abc".data, some ( "All".data), [100]⟩ = true ∧
    editSchemaValid ⟨ "abc".data, some ( "All".data)⟩ = true ∧
    (uploadPipeline ⟨ "abc".data, some ( "All".data), [100]⟩ 0
        (.ok ( "img".data)) (.acked ( "d1".data)) []).thumbnails
      = [⟨ "d1".data, "abc".data, "All".data, "img".data, 0⟩] := by
  refine ⟨by decide, by decide, by decide⟩

/-- C7 (amended): the schemas only require the category to be present;
the restriction to the enumerated set comes from the select menus,
which offer exactly the categories other than "All".  Provided the
submitted category is one of those options, create and update preserve
the invariant that every record's category belongs to the enumerated
set and is never "All". -/
theorem select_category_invariant (title cat newTitle editId
      : List Char)
    (now fsize : Nat) (enc : EncodeResult) (store : StoreResp)
    (ack : StoreAck) (l : List Thumbnail)
    (hsel : cat ∈ categories.filter (fun c => !(c == "All".data)))
    (hinv : ∀ t ∈ l, validCategory t.category = true) :
    (∀ t ∈ (uploadPipeline ⟨title, some cat, [fsize]⟩ now enc store
        l).thumbnails, validCategory t.category = true) ∧
    (∀ t ∈ (onEditSubmit editId newTitle cat ack l).thumbnails,
      validCategory t.category = true) := by
  have hmem := List.mem_filter.mp hsel
  have hcat : validCategory cat = true := by
    simp only [validCategory, Bool.and_eq_true]
    exact ⟨List.elem_eq_true_of_mem hmem.1, hmem.2⟩
  constructor
  · by_cases hv : uploadSchemaValid ⟨title, some cat, [fsize]⟩ = true
    · cases enc with
      | failed =>
        simp only [uploadPipeline, hv, if_true, onUploadSubmit]
        exact hinv
      | ok dataUrl =>
        by_cases hs : getByteLength dataUrl > MAX_DOC_SIZE_BYTES
        · simp only [uploadPipeline, hv, if_true, onUploadSubmit,
            if_pos hs]
          exact hinv
        · cases store with
          | failed =>
            simp only [uploadPipeline, hv, if_true, onUploadSubmit,
              if_neg hs]
            exact hinv
          | acked docId =>
            simp only [uploadPipeline, hv, if_true, onUploadSubmit,
              if_neg hs]
            intro t ht
            rcases List.mem_cons.mp ht with rfl | hmem2
            · exact hcat
            · exact hinv t hmem2
    · simp only [uploadPipeline, if_neg hv]
      exact hinv
  · cases ack with
    | failed => exact hinv
    | acked =>
      simp only [onEditSubmit]
      intro t ht
      rcases List.mem_map.mp ht with ⟨s, hs, rfl⟩
      by_cases hid : s.id == editId
      · rw [if_pos hid]
        exact hcat
      · rw [if_neg hid]
        exact hinv s hs

/-- Witness for C7 (amended) at a concrete select-menu category. -/
theorem select_category_invariant_witness :
    (∀ t ∈ (uploadPipeline ⟨ "abc".data, some ( "Tech".data), [100]⟩ 0
        (.ok ( "img".data)) (.acked ( "d2".data))
        [⟨ "d1".data, "a".data, "Vlog".data, "i1".data, 3⟩]).thumbnails,
      validCategory t.category = true) ∧
    (∀ t ∈ (onEditSubmit ( "d1".data) ( "new".data) ( "Tech".data) .acked
        [⟨ "d1".data, "a".data, "Vlog".data, "i1".data, 3⟩]).thumbnails,
      validCategory t.category = true) :=
  select_category_invariant ( "abc".data) ( "Tech".data)
    ( "new".data) ( "d1".data) 0 100 (.ok ( "img".data))
    (.acked ( "d2".data)) .acked
    [⟨ "d1".data, "a".data, "Vlog".data, "i1".data, 3⟩]
    (by decide) (by decide)

/-- C8: Upload validation rejects a file whose raw size exceeds the
pre-encoding ceiling of 0.7 MiB = 734,003.2 bytes before any encoding
work or store call, and a file of at most 734,003 bytes passes this
pre-check. -/
theorem preEncoding_size_gate (title : List Char)
    (cat : Option (List Char)) (fsize now : Nat) (enc : EncodeResult)
    (store : StoreResp) (l : List Thumbnail) :
    (7340032 < 10 * fsize →
      uploadSchemaValid ⟨title, cat, [fsize]⟩ = false ∧
      (uploadPipeline ⟨title, cat, [fsize]⟩ now enc store
          l).encodeCalls = 0 ∧
      (uploadPipeline ⟨title, cat, [fsize]⟩ now enc store
          l).storeCalls = 0 ∧
      (uploadPipeline ⟨title, cat, [fsize]⟩ now enc store
          l).thumbnails = l) ∧
    (fsize ≤ 734003 → fileSizeOk fsize = true) := by
  constructor
  · intro h
    have hsz : fileSizeOk fsize = false := by
      simp only [fileSizeOk, MAX_IMAGE_FILE_SIZE_BYTES_x10,
        decide_eq_false_iff_not]
      omega
    have hv : uploadSchemaValid ⟨title, cat, [fsize]⟩ = false := by
      simp [uploadSchemaValid, hsz]
    refine ⟨hv, ?_, ?_, ?_⟩ <;> simp [uploadPipeline, hv]
  · intro h
    simp only [fileSizeOk, MAX_IMAGE_FILE_SIZE_BYTES_x10,
      decide_eq_true_eq]
    omega

/-- Witness for C8: a 734,004-byte file is rejected with no encoding
and no store call; a 734,003-byte file passes the pre-check. -/
theorem preEncoding_size_gate_witness :
    (uploadSchemaValid ⟨ "abc".data, some ( "Tech".data), [734004]⟩
        = false ∧
      (uploadPipeline ⟨ "abc".data, some ( "Tech".data), [734004]⟩ 0
          (.ok ( "img".data)) (.acked ( "d1".data)) []).encodeCalls = 0 ∧
      (uploadPipeline ⟨ "abc".data, some ( "Tech".data), [734004]⟩ 0
          (.ok ( "img".data)) (.acked ( "d1".data)) []).storeCalls = 0 ∧
      (uploadPipeline ⟨ "abc".data, some ( "Tech".data), [734004]⟩ 0
          (.ok ( "img".data)) (.acked ( "d1".data)) []).thumbnails
        = []) ∧
    fileSizeOk 734003 = true := by
  constructor
  · exact (preEncoding_size_gate ( "abc".data) (some ( "Tech".data))
      734004 0 (.ok ( "img".data)) (.acked ( "d1".data)) []).1
      (by norm_num)
  · exact (preEncoding_size_gate ( "abc".data) (some ( "Tech".data))
      734003 0 (.ok ( "img".data)) (.acked ( "d1".data)) []).2
      (by norm_num)

/-- C9 counterexample: the critique output schema places no length
bound on `suggestions` — an output with an empty suggestions list is
accepted and returned by the flow, violating the claimed 2-to-4
bound. -/
theorem critique_empty_suggestions_accepted :
    critiqueThumbnailFlow (some ⟨ 50, 50, 50, "ok".data, []⟩)
      = some ⟨ 50, 50, 50, "ok".data, []⟩ ∧
    (⟨ 50, 50, 50, "ok".data, []⟩
        : CritiqueThumbnailOutput).suggestions.length = 0 := by
  refine ⟨by decide, rfl⟩

/-- C9 (amended): every successful result of the critique flow has
engagementScore, clarityScore and colorScore in the closed interval
[0, 100], a text verdict, and a list of text suggestions of
unconstrained length (the 2-to-4 range is only descriptive prompt
guidance, not schema-enforced). -/
theorem critique_scores_in_range (resp : Option CritiqueThumbnailOutput)
    (o : CritiqueThumbnailOutput)
    (h : critiqueThumbnailFlow resp = some o) :
    (0 ≤ o.engagementScore ∧ o.engagementScore ≤ 100) ∧
    (0 ≤ o.clarityScore ∧ o.clarityScore ≤ 100) ∧
    (0 ≤ o.colorScore ∧ o.colorScore ≤ 100) := by
  cases resp with
  | none => simp [critiqueThumbnailFlow] at h
  | some p =>
    simp only [critiqueThumbnailFlow] at h
    split at h
    · next hv =>
      cases h
      simp only [critiqueOutputSchemaValid, Bool.and_eq_true,
        decide_eq_true_eq] at hv
      exact ⟨⟨hv.1.1.1.1.1, hv.1.1.1.1.2⟩, ⟨hv.1.1.1.2, hv.1.1.2⟩,
        ⟨hv.1.2, hv.2⟩⟩
    · exact absurd h (by simp)

/-- Witness for C9 (amended) at a concrete accepted output. -/
theorem critique_scores_in_range_witness :
    (0 ≤ (70 : ℚ) ∧ (70 : ℚ) ≤ 100) ∧ (0 ≤ (80 : ℚ) ∧ (80 : ℚ) ≤ 100) ∧
    (0 ≤ (90 : ℚ) ∧ (90 : ℚ) ≤ 100) :=
  critique_scores_in_range
    (some ⟨ 70, 80, 90, "ok".data, [ "a".data, "b".data]⟩)
    ⟨ 70, 80, 90, "ok".data, [ "a".data, "b".data]⟩ (by decide)

/-- C10 counterexample: the download extension is
`split(';')[0].split('/')[1]`, which is not in general the substring
between the first '/' and the first ';' — when that substring itself
contains a '/', the code keeps only its part before that second
'/'. -/
theorem download_ext_truncates_subtype :
    downloadFilename ( "data:image/a/b;x".data) ( "t".data)
        ≠ collapseWs ( "t".data) ++ '.'
            :: claimExt ( "data:image/a/b;x".data) ∧
    downloadFilename ( "data:image/a/b;x".data) ( "t".data)
        = "t.a".data ∧
    claimExt ( "data:image/a/b;x".data) = "a/b".data := by
  refine ⟨by decide, by decide, by decide⟩

/-- A split never produces the empty list of pieces. -/
theorem splitOnChar_ne_nil (sep : Char) (l : List Char) :
    splitOnChar sep l ≠ [] := by
  cases l with
  | nil => simp [splitOnChar]
  | cons c rest =>
    simp only [splitOnChar]
    split
    · simp
    · split <;> simp

/-- The first piece of a split is the part of the string before the
first separator occurrence. -/
theorem splitOnChar_headD (sep : Char) (l : List Char) :
    (splitOnChar sep l).headD []
      = l.takeWhile (fun c => !(c == sep)) := by
  induction l with
  | nil => rfl
  | cons c rest ih =>
    by_cases hc : c = sep
    · subst hc
      simp [splitOnChar, List.takeWhile_cons]
    · have hne := splitOnChar_ne_nil sep rest
      cases hsp : splitOnChar sep rest with
      | nil => exact absurd hsp hne
      | cons h t =>
        rw [hsp] at ih
        simp only [List.headD_cons] at ih
        simp [splitOnChar, hc, hsp, List.takeWhile_cons, ih]

/-- takeWhile over an append whose first part wholly satisfies the
predicate. -/
theorem takeWhile_append_all (p : Char → Bool) (a b : List Char)
    (ha : ∀ c ∈ a, p c = true) :
    (a ++ b).takeWhile p = a ++ b.takeWhile p := by
  induction a with
  | nil => rfl
  | cons c rest ih =>
    have hc := ha c (by simp)
    simp [List.takeWhile_cons, hc,
      ih (fun x hx => ha x (by simp [hx]))]

/-- Two successive takeWhiles conjoin their predicates. -/
theorem takeWhile_and (p q : Char → Bool) (l : List Char) :
    (l.takeWhile p).takeWhile q
      = l.takeWhile (fun c => p c && q c) := by
  induction l with
  | nil => rfl
  | cons c rest ih =>
    by_cases hp : p c = true
    · by_cases hq : q c = true
      · simp [List.takeWhile_cons, hp, hq, ih]
      · simp [List.takeWhile_cons, hp, hq]
    · simp [List.takeWhile_cons, hp]

/-- C10 (amended): the download file name is the title with every
maximal whitespace run replaced by one underscore, a dot, and an
extension equal to the second '/'-separated field of the data URI's
portion before the first ';' — the characters after the first '/' up
to the next '/' or the first ';', whichever comes first — falling
back to "png" when that field is missing (no '/' before the first
';') or empty.  Exhaustive: every URI either has no '/' before its
first ';' (first clause) or splits at its first '/' as
`pre ++ '/' :: tail` with `pre` free of '/' and ';' (second and third
clauses). -/
theorem download_filename_shape (title url pre tail : List Char)
    (hp1 : '/' ∉ pre) (hp2 : ';' ∉ pre) :
    ('/' ∉ url.takeWhile (fun c => !(c == ';')) →
      downloadFilename url title
        = collapseWs title ++ '.' :: "png".data) ∧
    (tail.takeWhile (fun c => !(c == ';') && !(c == '/')) ≠ [] →
      downloadFilename (pre ++ '/' :: tail) title
        = collapseWs title ++ '.'
            :: tail.takeWhile (fun c => !(c == ';') && !(c == '/'))) ∧
    (tail.takeWhile (fun c => !(c == ';') && !(c == '/')) = [] →
      downloadFilename (pre ++ '/' :: tail) title
        = collapseWs title ++ '.' :: "png".data) := by
  have key : (splitOnChar '/'
      ((splitOnChar ';' (pre ++ '/' :: tail)).headD []))[1]?
      = some (tail.takeWhile (fun c => !(c == ';') && !(c == '/'))) := by
    rw [splitOnChar_headD]
    rw [takeWhile_append_all _ pre ('/' :: tail)
      (fun c hc => by
        simp only [Bool.not_eq_true', beq_eq_false_iff_ne, ne_eq]
        exact fun he => hp2 (he ▸ hc))]
    rw [List.takeWhile_cons_of_pos (by decide)]
    rw [splitOnChar_append '/' pre _ hp1]
    have hne := splitOnChar_ne_nil '/'
      (tail.takeWhile (fun c => !(c == ';')))
    cases hsp : splitOnChar '/' (tail.takeWhile (fun c => !(c == ';')))
        with
    | nil => exact absurd hsp hne
    | cons h t =>
      have hh := splitOnChar_headD '/'
        (tail.takeWhile (fun c => !(c == ';')))
      rw [hsp, List.headD_cons] at hh
      simp [hsp, hh, takeWhile_and]
  refine ⟨?_, ?_, ?_⟩
  · intro h
    have hb : splitOnChar '/' (url.takeWhile (fun c => !(c == ';')))
        = [url.takeWhile (fun c => !(c == ';'))] :=
      splitOnChar_of_not_mem '/' _ h
    simp only [downloadFilename, extFromDataUri, splitOnChar_headD, hb]
    simp
  · intro h
    have hemp : (tail.takeWhile
        (fun c => !(c == ';') && !(c == '/'))).isEmpty = false := by
      cases hc : tail.takeWhile (fun c => !(c == ';') && !(c == '/'))
          with
      | nil => exact absurd hc h
      | cons x xs => rfl
    simp only [downloadFilename, extFromDataUri, key]
    simp [hemp]
  · intro h
    simp only [downloadFilename, extFromDataUri, key, h]
    rfl

/-- Witness for C10 (amended): the three clauses at concrete inputs —
a URI with no '/' before the first ';' falls back to png; a URI whose
subtype field is truncated by a second '/' yields that truncated
field; a URI whose second field is empty falls back to png. -/
theorem download_filename_shape_witness :
    downloadFilename ( "data:;x".data) ( "t".data)
        = collapseWs ( "t".data) ++ '.' :: "png".data ∧
    downloadFilename ( "data:image".data ++ '/' :: "a/b;x".data)
        ( "my pic".data)
      = collapseWs ( "my pic".data) ++ '.' :: "a".data ∧
    downloadFilename ( "data:image".data ++ '/' :: "/b;x".data)
        ( "t".data)
      = collapseWs ( "t".data) ++ '.' :: "png".data := by
  refine ⟨?_, ?_, ?_⟩
  · exact (download_filename_shape ( "t".data) ( "data:;x".data) [] []
      (by decide) (by decide)).1 (by decide)
  · exact (download_filename_shape ( "my pic".data) []
      ( "data:image".data) ( "a/b;x".data) (by decide) (by decide)).2.1
      (by decide)
  · exact (download_filename_shape ( "t".data) [] ( "data:image".data)
      ( "/b;x".data) (by decide) (by decide)).2.2 (by decide)

end ThumbZone
